import Mathlib

/-!
Verification of the WrenAI database-schema retrieval pipeline
(`src/pipelines/retrieval/db_schema_retrieval.py`).

The pipeline stages are shallowly embedded as pure Lean functions:
each Python stage becomes a total function; Python exceptions
(for example `ast.literal_eval` or `orjson.loads` failures) become
`Except String` results; external collaborators (embedder, retriever,
tokenizer, LLM generator) become function parameters.
-/

namespace WrenAI

/-- A column descriptor as stored inside fragment contents
(`name`, `data_type`, `comment`, `is_calculated`, `is_json_field`). -/
structure Column where
  name : String
  data_type : String
  comment : String
  is_calculated : Bool
  is_json_field : Bool
deriving DecidableEq, Repr

/-- The non-column payload of a `TABLE` fragment's decoded content:
its `name` and `comment` fields, plus an optional `columns` key
(the Python content is a dict; the `columns` key may be absent). -/
structure TableBase where
  name : String
  comment : String
  columns? : Option (List Column)
deriving DecidableEq, Repr

/-- Decoded content of a stored schema fragment, tagged by its
`type` field exactly as the Python code branches on it:
`TABLE`, `TABLE_COLUMNS`, `METRIC`, `VIEW`. -/
inductive FragContent where
  | table (b : TableBase)
  | tableColumns (columns : List Column)
  | metric (name comment : String) (columns : List Column)
  | view (name comment statement : String)
deriving DecidableEq, Repr

/-- A stored document: `meta["name"]` plus its content string,
abstracted as the outcome of decoding it (`none` models a content
string on which `ast.literal_eval` raises). -/
structure Document where
  metaName : String
  content : Option FragContent
deriving DecidableEq, Repr

/-- Decode a document's content; raising `ast.literal_eval` is modelled
as an `Except.error`. -/
def decodeDoc (d : Document) : Except String FragContent :=
  match d.content with
  | some c => Except.ok c
  | none => Except.error ("MalformedFragment: " ++ d.metaName)

/-- The accumulated per-table dict entry inside `construct_db_schemas`'
`db_schemas` mapping. `base = some (name, comment)` models the presence
of the `type`/`name`/`comment` keys (merged from a `TABLE` fragment;
the type value is always the literal string `TABLE` in that branch);
`columns = some cs` models the presence of the `columns` key. -/
structure SchemaEntry where
  base : Option (String × String)
  columns : Option (List Column)
deriving DecidableEq, Repr

/-- Look up a key in the insertion-ordered association list that models
the Python dict `db_schemas`. -/
def lookupEntry (db : List (String × SchemaEntry)) (k : String) : Option SchemaEntry :=
  (db.find? (fun p => p.1 == k)).map (fun p => p.2)

/-- Replace the value at an existing key, keeping its position
(Python dict assignment on a present key). -/
def updateEntry (db : List (String × SchemaEntry)) (k : String) (e : SchemaEntry) :
    List (String × SchemaEntry) :=
  db.map (fun p => if p.1 == k then (k, e) else p)

/-- One iteration of the fragment loop in `construct_db_schemas`:
- a `TABLE` fragment overwrites the entry with its own fields but keeps
  already-present columns (`{**content, "columns": old.get("columns", [])}`),
  or becomes the entry verbatim when the name is new;
- a `TABLE_COLUMNS` fragment appends its columns to an existing `columns`
  key, sets it if absent, or creates a columns-only entry for a new name;
- any other content type is ignored by this stage. -/
def applyFrag (db : List (String × SchemaEntry)) (metaName : String) (c : FragContent) :
    List (String × SchemaEntry) :=
  match c with
  | FragContent.table b =>
    match lookupEntry db metaName with
    | none => db ++ [(metaName, ⟨some (b.name, b.comment), b.columns?⟩)]
    | some e =>
      updateEntry db metaName ⟨some (b.name, b.comment), some (e.columns.getD [])⟩
  | FragContent.tableColumns cols =>
    match lookupEntry db metaName with
    | none => db ++ [(metaName, ⟨none, some cols⟩)]
    | some e =>
      updateEntry db metaName
        ⟨e.base, some (match e.columns with
                       | none => cols
                       | some old => old ++ cols)⟩
  | FragContent.metric _ _ _ => db
  | FragContent.view _ _ _ => db

/-- A reassembled table descriptor, i.e. one of the dict values surfaced
by `construct_db_schemas` (which all have `type`, `name`, `comment`
and `columns` keys; `ty` is the literal `type` value, always `TABLE`
for surfaced entries). -/
structure DbSchema where
  ty : String
  name : String
  comment : String
  columns : List Column
deriving DecidableEq, Repr

/-- The final filter of `construct_db_schemas`: keep only entries having
both a `type` key (hence a `TABLE` payload) and a `columns` key, and
return their dict values in first-seen key order. -/
def surfaceEntries (db : List (String × SchemaEntry)) : List DbSchema :=
  db.filterMap (fun p =>
    match p.2.base, p.2.columns with
    | some (n, c), some cols => some ⟨"TABLE", n, c, cols⟩
    | _, _ => none)

/-- One fold step of `construct_db_schemas`: decode the document
(propagating a decode failure) and merge it into the mapping. -/
def reassembleStep (db : List (String × SchemaEntry)) (d : Document) :
    Except String (List (String × SchemaEntry)) :=
  (decodeDoc d).map (fun c => applyFrag db d.metaName c)

/-- `construct_db_schemas`: fold all retrieved fragments into the
name-keyed mapping, then surface the complete entries. A fragment whose
content fails to decode makes the whole stage raise. -/
def construct_db_schemas (docs : List Document) : Except String (List DbSchema) :=
  (docs.foldlM reassembleStep []).map surfaceEntries

/-- Modelled from the spec: `get_engine_supported_data_type` lives in
`src/pipelines/common.py`, which is not among the provided sources.
§4.1 describes it as a vendor-neutral data-type normalization map whose
exact entries the spec does not list; it is modelled as the identity so
that the mapped type string is the tag itself. No claim depends on the
map's entries. -/
def get_engine_supported_data_type (s : String) : String := s

/-- Python's `str.lower()` applied to a data-type tag, mapped
characterwise over the string's characters. -/
def lowerTag (s : String) : String := String.mk (s.data.map Char.toLower)

/-- Modelled from the spec: `build_table_ddl` lives in
`src/pipelines/common.py`, which is not among the provided sources.
Per §4.1 it returns `(ddl, has_calculated_field, has_json_field)`:
the DDL is `<comment>CREATE TABLE <name> (\n  <col>,\n  ...\n);` where a
column line is `<comment><name> <engine_type>`; columns whose
`data_type` is `unknown` (case-insensitive) are always excluded; when a
selection is given, only columns whose name is a member of the
selection are emitted (the Python call site passes a `set`, consumed by
membership). The flags record whether an included column is calculated
resp. JSON-typed; §9 leaves the cross-table calculated-field refinement
open, so the `tables` argument is carried but does not alter the flag. -/
def build_table_ddl (schema : DbSchema) (columns : Option (List String) := none)
    (tables : Option (List String) := none) : String × Bool × Bool :=
  let _ := tables
  let included := schema.columns.filter (fun c =>
    lowerTag c.data_type != "unknown" &&
    (match columns with
     | none => true
     | some sel => sel.contains c.name))
  let colDdls := included.map (fun c =>
    c.comment ++ c.name ++ " " ++ get_engine_supported_data_type c.data_type)
  (schema.comment ++ "CREATE TABLE " ++ schema.name ++ " (\n  " ++
      String.intercalate ",\n  " colDdls ++ "\n);",
   included.any (fun c => c.is_calculated),
   included.any (fun c => c.is_json_field))

/-- `_build_metric_ddl`: build a CREATE TABLE form from a METRIC
fragment's content, filtering out columns of `unknown` data type. -/
def build_metric_ddl (name comment : String) (columns : List Column) : String :=
  let columns_ddl := (columns.filter (fun c => lowerTag c.data_type != "unknown")).map
    (fun c => c.comment ++ c.name ++ " " ++ get_engine_supported_data_type c.data_type)
  comment ++ "CREATE TABLE " ++ name ++ " (\n  " ++
    String.intercalate ",\n  " columns_ddl ++ "\n);"

/-- `_build_view_ddl`: build a CREATE VIEW form from a VIEW fragment. -/
def build_view_ddl (name comment statement : String) : String :=
  comment ++ "CREATE VIEW " ++ name ++ "\nAS " ++ statement

/-- One `{table_name, table_ddl}` element of a retrieval result list. -/
structure RetrievalResult where
  table_name : String
  table_ddl : String
deriving DecidableEq, Repr

/-- Output dict of `check_using_db_schemas_without_pruning`. -/
structure CheckResult where
  db_schemas : List RetrievalResult
  tokens : Nat
  has_calculated_field : Bool
  has_metric : Bool
  has_json_field : Bool
deriving DecidableEq, Repr

/-- The first loop of `check_using_db_schemas_without_pruning`: build an
unpruned DDL for every reassembled descriptor of type `TABLE`,
accumulating the calculated-field and JSON-field flags. -/
def tableCandidates (schemas : List DbSchema) : List RetrievalResult × Bool × Bool :=
  schemas.foldl (fun (acc : List RetrievalResult × Bool × Bool) s =>
    if s.ty == "TABLE" then
      let r := build_table_ddl s
      (acc.1 ++ [⟨s.name, r.1⟩], acc.2.1 || r.2.1, acc.2.2 || r.2.2)
    else acc) ([], false, false)

/-- The second loop of `check_using_db_schemas_without_pruning`: decode
every raw fragment (a decode failure raises) and emit a DDL for each
`METRIC` or `VIEW` content, setting `has_metric` on metrics. -/
def fragCandidates (docs : List Document) : Except String (List RetrievalResult × Bool) :=
  docs.foldlM (fun (acc : List RetrievalResult × Bool) d =>
    (decodeDoc d).map (fun c =>
      match c with
      | FragContent.metric n cm cols => (acc.1 ++ [⟨n, build_metric_ddl n cm cols⟩], true)
      | FragContent.view n cm st => (acc.1 ++ [⟨n, build_view_ddl n cm st⟩], acc.2)
      | _ => acc)) ([], false)

/-- The unpruned candidate set: the table results followed by the
metric/view results, with the three aggregate flags
(calculated-field, metric, JSON-field). -/
def candidate_set (schemas : List DbSchema) (docs : List Document) :
    Except String (List RetrievalResult × Bool × Bool × Bool) :=
  match fragCandidates docs with
  | Except.error e => Except.error e
  | Except.ok fr =>
    let t := tableCandidates schemas
    Except.ok (t.1 ++ fr.1, t.2.1, fr.2, t.2.2)

/-- `check_using_db_schemas_without_pruning`: build the unpruned
candidate set, join the DDLs with single spaces and count tokens with
the injected tokenizer, then return empty `db_schemas` when the count
exceeds the context window or pruning is forced, and the full candidate
list otherwise; the token count and flags are the same in both
branches. -/
def check_using_db_schemas_without_pruning (schemas : List DbSchema)
    (docs : List Document) (encode : String → List Nat)
    (enable_column_pruning : Bool) (context_window_size : Nat) :
    Except String CheckResult :=
  match candidate_set schemas docs with
  | Except.error e => Except.error e
  | Except.ok c =>
    let results := c.1
    let tokenCount :=
      (encode (String.intercalate " " (results.map (fun r => r.table_ddl)))).length
    if context_window_size < tokenCount ∨ enable_column_pruning = true then
      Except.ok ⟨[], tokenCount, c.2.1, c.2.2.1, c.2.2.2⟩
    else
      Except.ok ⟨results, tokenCount, c.2.1, c.2.2.1, c.2.2.2⟩

/-- An element of the conversation history (`AskHistory`); only its
`question` field is consumed by this pipeline. -/
structure AskHistory where
  question : String
deriving DecidableEq, Repr

/-- Modelled from the spec: `clean_up_new_lines` lives in
`src/pipelines/common.py`, which is not among the provided sources and
whose behavior the spec does not describe; the prompt text is opaque to
every claim, so it is modelled as the identity on the rendered text. -/
def clean_up_new_lines (s : String) : String := s

/-- Modelled from the spec: `PromptBuilder.run` renders the user prompt
template of §4.4 (the DDLs of all reassembled tables followed by the
query); the template engine's exact whitespace is abstracted into a
fixed concatenation. Only the emptiness of the `prompt` stage's output
matters to the claims, never this text. -/
def render_user_prompt (question : String) (db_schemas : List String) : String :=
  "\n### Database Schema ###\n\n" ++ String.intercalate "\n" db_schemas ++
    "\n\n### INPUT ###\n" ++ question ++ "\n"

/-- The `prompt` stage: when the budget evaluator returned empty
`db_schemas` (pruning required), render the selection prompt over the
unpruned DDLs of all reassembled descriptors and the history-prefixed
query; otherwise return the empty dict, modelled as `none`. -/
def prompt (query : String) (construct_db_schemas : List DbSchema)
    (check : CheckResult) (histories : List AskHistory) : Option String :=
  if check.db_schemas = [] then
    let db_schemas := construct_db_schemas.map (fun s => (build_table_ddl s).1)
    let previous_query_summaries :=
      if histories = [] then [] else histories.map (fun h => h.question)
    let q := String.intercalate "\n" previous_query_summaries ++ "\n" ++ query
    some (clean_up_new_lines (render_user_prompt q db_schemas))
  else
    none

/-- The `table_contents` object of one entry of the LLM's pruning
reply (`MatchingTableContents` in the source). -/
structure MatchingTableContents where
  chain_of_thought_reasoning : List String
  columns : List String
deriving DecidableEq, Repr, Inhabited

/-- One entry of the `results` list of the LLM's pruning reply
(`MatchingTable` in the source). -/
structure MatchingTable where
  table_name : String
  table_contents : MatchingTableContents
  table_selection_reason : String
deriving DecidableEq, Repr

/-- One raw LLM reply string, abstracted as the outcome of
`orjson.loads(reply)["results"]`: `none` models a string that is not
valid JSON or whose decoded object lacks a usable `results` list. -/
structure LLMReply where
  decoded : Option (List MatchingTable)
deriving DecidableEq, Repr

/-- The generator's output dict (`{"replies": [...]}`). -/
structure FilterOutput where
  replies : List LLMReply
deriving DecidableEq, Repr

/-- `filter_columns_in_tables`: call the column-selection generator on
the built prompt, or return the empty dict (`none`) when no prompt was
built. (The source also threads `generator_name` through a cost-tracing
wrapper; only the generator output reaches the assembler.) -/
def filter_columns_in_tables (prompt : Option String)
    (table_columns_selection_generator : String → FilterOutput) : Option FilterOutput :=
  prompt.map table_columns_selection_generator

/-- Look up a table name in the reformatted pruning selection. -/
def lookupContents (m : List (String × MatchingTableContents)) (k : String) :
    Option MatchingTableContents :=
  (m.find? (fun p => p.1 == k)).map (fun p => p.2)

/-- Python dict assignment `reformated_json[name] = contents`: replace
the first (only) binding of the key in place, or append a new binding. -/
def upsertContents (m : List (String × MatchingTableContents)) (k : String)
    (v : MatchingTableContents) : List (String × MatchingTableContents) :=
  match m with
  | [] => [(k, v)]
  | p :: rest => if p.1 == k then (k, v) :: rest else p :: upsertContents rest k v

/-- The reformatting loop of `construct_retrieval_results`: turn the
decoded `results` list into a mapping keyed by `table_name` (a later
entry for the same name overwrites the earlier one). -/
def reformat (tbls : List MatchingTable) : List (String × MatchingTableContents) :=
  tbls.foldl (fun m t => upsertContents m t.table_name t.table_contents) []

/-- The final output dict of the pipeline. -/
structure FinalResult where
  retrieval_results : List RetrievalResult
  has_calculated_field : Bool
  has_metric : Bool
  has_json_field : Bool
deriving DecidableEq, Repr

/-- The pruned-path loop over reassembled descriptors: for each
descriptor of type `TABLE` whose name is a key of the selection,
rebuild its DDL restricted to the selected columns (with the selected
table names passed through), accumulating the two flags. A descriptor
whose name is not selected contributes nothing. -/
def prunedTableStep (needed : List (String × MatchingTableContents))
    (acc : List RetrievalResult × Bool × Bool) (s : DbSchema) :
    List RetrievalResult × Bool × Bool :=
  if s.ty == "TABLE" then
    match lookupContents needed s.name with
    | some tc =>
      let r := build_table_ddl s (some tc.columns) (some (needed.map (fun p => p.1)))
      (acc.1 ++ [⟨s.name, r.1⟩], acc.2.1 || r.2.1, acc.2.2 || r.2.2)
    | none => acc
  else acc

def prunedTableResults (schemas : List DbSchema)
    (needed : List (String × MatchingTableContents)) :
    List RetrievalResult × Bool × Bool :=
  schemas.foldl (prunedTableStep needed) ([], false, false)

/-- The pruned-path loop over raw fragments: for each document whose
meta name is a key of the selection, decode its content (a decode
failure raises) and emit a DDL when it is a `METRIC` or `VIEW`,
setting `has_metric` on metrics. Unselected documents are not decoded
and contribute nothing. -/
def prunedFragStep (needed : List (String × MatchingTableContents))
    (acc : List RetrievalResult × Bool) (d : Document) :
    Except String (List RetrievalResult × Bool) :=
  if (lookupContents needed d.metaName).isSome then
    (decodeDoc d).map (fun c =>
      match c with
      | FragContent.metric n cm cols => (acc.1 ++ [⟨n, build_metric_ddl n cm cols⟩], true)
      | FragContent.view n cm st => (acc.1 ++ [⟨n, build_view_ddl n cm st⟩], acc.2)
      | _ => acc)
  else Except.ok acc

def prunedFragResults (docs : List Document)
    (needed : List (String × MatchingTableContents)) :
    Except String (List RetrievalResult × Bool) :=
  docs.foldlM (prunedFragStep needed) ([], false)

/-- `construct_retrieval_results`: when the pruning generator produced
output, decode `replies[0]` (an absent reply or an undecodable one
raises, modelled as `Except.error`), reformat the selection into a
name-keyed map, and rebuild the result list from the selected
descriptors and fragments; otherwise pass the budget evaluator's
candidate results and flags through unchanged. -/
def construct_retrieval_results (check : CheckResult) (filt : Option FilterOutput)
    (schemas : List DbSchema) (docs : List Document) : Except String FinalResult :=
  match filt with
  | none =>
    Except.ok ⟨check.db_schemas, check.has_calculated_field,
               check.has_metric, check.has_json_field⟩
  | some f =>
    match f.replies.head? with
    | none => Except.error "PruningResponseInvalid: no replies"
    | some reply =>
      match reply.decoded with
      | none => Except.error "PruningResponseInvalid"
      | some results =>
        let needed := reformat results
        match prunedFragResults docs needed with
        | Except.error e => Except.error e
        | Except.ok fr =>
          let t := prunedTableResults schemas needed
          Except.ok ⟨t.1 ++ fr.1, t.2.1, fr.2, t.2.2⟩

/-- Result dict of the text embedder (`{"embedding": [...]}`); the
vector of floats is abstracted as a list of integers, which no claim
inspects. -/
structure EmbeddingResult where
  embedding : List Int
deriving DecidableEq, Repr

/-- The `embedding` stage: with a non-empty query, prepend the
newline-joined history questions and call the embedder; with an empty
query, return the empty dict (`none`) without calling the embedder. -/
def embedding (query : String) (embed : String → EmbeddingResult)
    (histories : List AskHistory) : Option EmbeddingResult :=
  if query ≠ "" then
    let previous_query_summaries :=
      if histories ≠ [] then histories.map (fun h => h.question) else []
    some (embed (String.intercalate "\n" previous_query_summaries ++ "\n" ++ query))
  else
    none

/-- A value in a retrieval filter condition: a single string or a list
of strings. -/
inductive FilterVal where
  | str (v : String)
  | strs (v : List String)
deriving DecidableEq, Repr

/-- One `{field, operator, value}` leaf of a retrieval filter. -/
structure Condition where
  field : String
  op : String
  value : FilterVal
deriving DecidableEq, Repr

/-- The AND-filter built by `table_retrieval` (its conditions are all
leaves). -/
structure Filters where
  operator : String
  conditions : List Condition
deriving DecidableEq, Repr

/-- The base conditions of `table_retrieval`'s filter: the
`TABLE_DESCRIPTION` type condition, plus the project condition when a
project id is supplied. -/
def table_description_conditions (project_id : String) : List Condition :=
  let base := [⟨"type", "==", FilterVal.str "TABLE_DESCRIPTION"⟩]
  if project_id ≠ "" then
    base ++ [⟨"project_id", "==", FilterVal.str project_id⟩]
  else base

/-- The `table_retrieval` stage: with a non-empty embedding result, run
the retriever on the embedding vector and the base filter; with an
empty embedding result, run it on an empty vector and the base filter
extended with an exact-name `in` condition over the supplied tables. -/
def table_retrieval {α : Type} (embedding : Option EmbeddingResult)
    (project_id : String) (tables : List String)
    (table_retriever : List Int → Filters → α) : α :=
  match embedding with
  | some e =>
    table_retriever e.embedding ⟨"AND", table_description_conditions project_id⟩
  | none =>
    table_retriever []
      ⟨"AND", table_description_conditions project_id ++
        [⟨"name", "in", FilterVal.strs tables⟩]⟩

/-- The contribution of one reassembled descriptor to the pruned-path
result list: a rebuilt DDL when the descriptor has type `TABLE` and its
name is a key of the pruning selection, nothing otherwise. -/
def selectedTableResult (needed : List (String × MatchingTableContents))
    (s : DbSchema) : Option RetrievalResult :=
  if s.ty == "TABLE" then
    (lookupContents needed s.name).map (fun tc =>
      ⟨s.name, (build_table_ddl s (some tc.columns)
        (some (needed.map (fun p => p.1)))).1⟩)
  else none

/-- The contribution of one raw fragment to the pruned-path result
list: a metric or view DDL when its meta name is a key of the pruning
selection and its content decodes to `METRIC`/`VIEW`, nothing
otherwise. -/
def selectedFragResult (needed : List (String × MatchingTableContents))
    (d : Document) : Option RetrievalResult :=
  if (lookupContents needed d.metaName).isSome then
    match d.content with
    | some (FragContent.metric n cm cols) => some ⟨n, build_metric_ddl n cm cols⟩
    | some (FragContent.view n cm st) => some ⟨n, build_view_ddl n cm st⟩
    | _ => none
  else none

/-! ## Example data shared by the witnesses and counterexamples -/

/-- A simple integer column. -/
def exColId : Column := ⟨"id", "integer", "", false, false⟩

/-- A column with unknown data type. -/
def exColAmt : Column := ⟨"amt", "unknown", "", false, false⟩

/-- A `TABLE` fragment for `orders` without a columns payload. -/
def exDocTable : Document := ⟨"orders", some (FragContent.table ⟨"orders", "", none⟩)⟩

/-- A `TABLE_COLUMNS` fragment for `orders`. -/
def exDocCols : Document := ⟨"orders", some (FragContent.tableColumns [exColId, exColAmt])⟩

/-- A fragment whose content cannot be decoded. -/
def exDocBad : Document := ⟨"orders", none⟩

/-- The `orders` descriptor reassembled from `exDocTable` and `exDocCols`. -/
def exOrders : DbSchema := ⟨"TABLE", "orders", "", [exColId, exColAmt]⟩

/-- A second reassembled descriptor, `customers`. -/
def exCustomers : DbSchema := ⟨"TABLE", "customers", "", [exColId]⟩

/-- A tokenizer that charges one token per character. -/
def exEncode : String → List Nat := fun s => List.replicate s.length 0

/-- A second plain column, used to exhibit order sensitivity. -/
def exColName : Column := ⟨"cname", "varchar", "", false, false⟩

/-- A `TABLE_COLUMNS` fragment for `orders` carrying only `id`. -/
def exDocColsA : Document := ⟨"orders", some (FragContent.tableColumns [exColId])⟩

/-- A `TABLE_COLUMNS` fragment for `orders` carrying only `cname`. -/
def exDocColsB : Document := ⟨"orders", some (FragContent.tableColumns [exColName])⟩

/-- The mapping contribution of a single fragment when its table name is
fresh: the entry `construct_db_schemas` would create for it. -/
def singleEntry (d : Document) : Option (String × SchemaEntry) :=
  match d.content with
  | some (FragContent.table b) =>
    some (d.metaName, ⟨some (b.name, b.comment), b.columns?⟩)
  | some (FragContent.tableColumns cols) => some (d.metaName, ⟨none, some cols⟩)
  | _ => none

/-! ## Theorems for the claims -/

/-- C7. If the LLM's pruning reply fails to decode as the expected JSON
shape or its `results` key is absent, `construct_retrieval_results`
propagates the failure: the stage raises (`Except.error`), there is no
local retry, no fallback to the unpruned schema, and no partial
retrieval result is returned. -/
theorem pruning_reply_invalid_propagates (check : CheckResult) (f : FilterOutput)
    (r : LLMReply) (schemas : List DbSchema) (docs : List Document)
    (hh : f.replies.head? = some r) (hd : r.decoded = none) :
    construct_retrieval_results check (some f) schemas docs =
      Except.error "PruningResponseInvalid" := by
  simp [construct_retrieval_results, hh, hd]

/-- Witness for `pruning_reply_invalid_propagates` at a concrete
malformed reply. -/
theorem pruning_reply_invalid_propagates_witness :
    construct_retrieval_results ⟨[], 0, false, false, false⟩
      (some ⟨[⟨none⟩]⟩) [exOrders] [exDocTable] =
      Except.error "PruningResponseInvalid" :=
  pruning_reply_invalid_propagates ⟨[], 0, false, false, false⟩
    ⟨[⟨none⟩]⟩ ⟨none⟩ [exOrders] [exDocTable] rfl rfl

/-- C8 (amended). The pruning LLM call is issued exactly when the budget
evaluator signalled pruning: the `prompt` stage's output is non-empty
iff the evaluator returned empty `db_schemas` — irrespective of the
query text, so an empty query does not by itself short-circuit the
call; an empty prompt short-circuits `filter_columns_in_tables` to the
empty dict, and the assembler then falls back to the unpruned path,
returning the budget evaluator's candidate results and flags
unchanged. -/
theorem prompt_gates_pruning_call (q : String) (schemas : List DbSchema)
    (check : CheckResult) (histories : List AskHistory)
    (gen : String → FilterOutput) (docs : List Document) :
    ((prompt q schemas check histories).isSome ↔ check.db_schemas = []) ∧
    filter_columns_in_tables none gen = none ∧
    construct_retrieval_results check none schemas docs =
      Except.ok ⟨check.db_schemas, check.has_calculated_field,
                 check.has_metric, check.has_json_field⟩ := by
  refine ⟨?_, rfl, rfl⟩
  unfold prompt
  by_cases h : check.db_schemas = [] <;> simp [h]

/-- C8 counterexample. With an empty query and the budget evaluator
signalling pruning (empty `db_schemas`), the `prompt` stage still
builds a non-empty prompt and the pruning generator is still invoked —
contradicting the claim that a missing query text yields an empty
prompt that short-circuits to the unpruned path. -/
theorem empty_query_still_builds_prompt :
    (prompt "" [] ⟨[], 5000, false, false, false⟩ []).isSome = true ∧
    filter_columns_in_tables
      (prompt "" [] ⟨[], 5000, false, false, false⟩ [])
      (fun _ => ⟨[]⟩) = some ⟨[]⟩ := by
  constructor <;> rfl

/-- C9. For a request with an empty query string the embedding stage
returns the empty dict without calling the embedder, and table
retrieval then runs the retriever with an empty query embedding and the
base filter extended with an exact-name `in` condition over the
supplied tables; with a non-empty query the embedder is called on the
history questions newline-joined before the current question, and the
retriever runs on the resulting embedding with no name condition. -/
theorem embedding_and_table_retrieval_modes {α : Type} (q : String)
    (embed : String → EmbeddingResult) (histories : List AskHistory)
    (project_id : String) (tables : List String)
    (table_retriever : List Int → Filters → α) (e : EmbeddingResult)
    (hq : q ≠ "") :
    embedding "" embed histories = none ∧
    table_retrieval none project_id tables table_retriever =
      table_retriever []
        ⟨"AND", table_description_conditions project_id ++
          [⟨"name", "in", FilterVal.strs tables⟩]⟩ ∧
    embedding q embed histories =
      some (embed (String.intercalate "\n" (histories.map (fun h => h.question))
        ++ "\n" ++ q)) ∧
    table_retrieval (some e) project_id tables table_retriever =
      table_retriever e.embedding ⟨"AND", table_description_conditions project_id⟩ := by
  refine ⟨rfl, rfl, ?_, rfl⟩
  unfold embedding
  rw [if_pos hq]
  cases histories <;> simp

/-- Witness for `embedding_and_table_retrieval_modes` at a concrete
query, history and retriever. -/
theorem embedding_and_table_retrieval_modes_witness :
    embedding "" (fun s => ⟨[Int.ofNat s.length]⟩) [⟨"prev"⟩] = none ∧
    table_retrieval none "p1" ["orders"]
        (fun v f => (v, f)) =
      ((([] : List Int),
        (⟨"AND", table_description_conditions "p1" ++
          [⟨"name", "in", FilterVal.strs ["orders"]⟩]⟩ : Filters))) ∧
    embedding "total?" (fun s => ⟨[Int.ofNat s.length]⟩) [⟨"prev"⟩] =
      some ((fun s => (⟨[Int.ofNat s.length]⟩ : EmbeddingResult))
        (String.intercalate "\n"
          (([⟨"prev"⟩] : List AskHistory).map (fun h => h.question))
          ++ "\n" ++ "total?")) ∧
    table_retrieval (some ⟨[7]⟩) "p1" ["orders"] (fun v f => (v, f)) =
      (([7] : List Int), (⟨"AND", table_description_conditions "p1"⟩ : Filters)) :=
  embedding_and_table_retrieval_modes "total?" (fun s => ⟨[Int.ofNat s.length]⟩)
    [⟨"prev"⟩] "p1" ["orders"] (fun v f => (v, f)) ⟨[7]⟩ (by decide)

/-- The reassembly fold raises exactly when some document's content
fails to decode, regardless of the accumulated mapping. -/
lemma foldlM_reassemble_error (docs : List Document) :
    ∀ db, (∃ e, docs.foldlM reassembleStep db = Except.error e) ↔
      ∃ d ∈ docs, d.content = none := by
  induction docs with
  | nil => intro db; simp [pure, Except.pure]
  | cons d ds ih =>
    intro db
    rw [List.foldlM_cons]
    cases hd : d.content with
    | none =>
      have hstep : reassembleStep db d =
          Except.error ("MalformedFragment: " ++ d.metaName) := by
        simp [reassembleStep, decodeDoc, hd, Except.map]
      rw [hstep]
      simp [Bind.bind, Except.bind, hd]
    | some c =>
      have hstep : reassembleStep db d = Except.ok (applyFrag db d.metaName c) := by
        simp [reassembleStep, decodeDoc, hd, Except.map]
      rw [hstep]
      simp [Bind.bind, Except.bind, ih, hd]

/-- C1 (amended). A retrieved fragment whose content cannot be decoded
is not dropped: `construct_db_schemas` raises exactly when some
fragment's content fails to decode, so the retrieval request aborts
instead of degrading to the schema of the remaining decodable
fragments. -/
theorem reassembly_aborts_iff_malformed (docs : List Document) :
    (∃ e, construct_db_schemas docs = Except.error e) ↔
      ∃ d ∈ docs, d.content = none := by
  unfold construct_db_schemas
  rw [show (∃ e, (docs.foldlM reassembleStep []).map surfaceEntries = Except.error e) ↔
      (∃ e, docs.foldlM reassembleStep [] = Except.error e) from ?_]
  · exact foldlM_reassemble_error docs []
  · cases docs.foldlM reassembleStep [] <;> simp [Except.map]

/-- C1 counterexample. At a concrete fragment set holding one
undecodable fragment, reassembly raises rather than completing with the
result of the decodable fragments; the decodable subset alone would
have produced a descriptor. -/
theorem malformed_fragment_aborts_cx :
    construct_db_schemas [exDocTable, exDocCols, exDocBad] =
      Except.error "MalformedFragment: orders" ∧
    construct_db_schemas [exDocTable, exDocCols] = Except.ok [exOrders] := by
  constructor <;> rfl

/-- C2 (amended). The budget evaluator returns the token count of the
single-space-joined unpruned candidate DDLs and the aggregate flags of
the unpruned candidate set identically in both branches, and returns
empty `candidate_results` iff the token count exceeds the context
window, pruning is forced, or the unpruned candidate set is itself
empty. -/
theorem token_budget_decision (schemas : List DbSchema) (docs : List Document)
    (encode : String → List Nat) (p : Bool) (w : Nat) (c : CheckResult)
    (h : check_using_db_schemas_without_pruning schemas docs encode p w =
      Except.ok c) :
    ∃ cand, candidate_set schemas docs = Except.ok cand ∧
      c.tokens =
        (encode (String.intercalate " "
          (cand.1.map (fun r => r.table_ddl)))).length ∧
      c.has_calculated_field = cand.2.1 ∧
      c.has_metric = cand.2.2.1 ∧
      c.has_json_field = cand.2.2.2 ∧
      c.db_schemas = (if w < c.tokens ∨ p = true then [] else cand.1) ∧
      (c.db_schemas = [] ↔ (w < c.tokens ∨ p = true ∨ cand.1 = [])) := by
  unfold check_using_db_schemas_without_pruning at h
  cases hc : candidate_set schemas docs with
  | error e => rw [hc] at h; exact absurd h (by simp)
  | ok cand =>
    rw [hc] at h
    dsimp only at h
    refine ⟨cand, rfl, ?_⟩
    by_cases hcond :
        w < (encode (String.intercalate " "
          (cand.1.map (fun r => r.table_ddl)))).length ∨ p = true
    · rw [if_pos hcond] at h
      cases h
      refine ⟨rfl, rfl, rfl, rfl, ?_, ?_⟩
      · rw [if_pos hcond]
      · simp [hcond.imp_right Or.inl]
    · rw [if_neg hcond] at h
      cases h
      push_neg at hcond
      refine ⟨rfl, rfl, rfl, rfl, ?_, ?_⟩
      · rw [if_neg]; push_neg; exact hcond
      · simp [hcond.1.not_lt, hcond.2]

/-- C2 counterexample. With no candidate DDLs at all, a token count of
zero, a context window of 4000 and pruning not forced, the evaluator
still returns empty `candidate_results` (from the not-required branch),
so emptiness is not equivalent to over-budget-or-forced. -/
theorem empty_candidates_not_over_budget_cx :
    check_using_db_schemas_without_pruning [] [] exEncode false 4000 =
      Except.ok ⟨[], 0, false, false, false⟩ ∧
    ¬ (4000 < (0 : Nat) ∨ false = true) := by
  constructor
  · rfl
  · simp

/-- C5. For a fixed set of reassembled descriptors, raw fragments,
tokenizer and force-pruning flag, a budget decision of "pruning not
required" (non-empty `candidate_results`) at window `w` stays "not
required" at every window `w' ≥ w`. -/
theorem budget_monotone (schemas : List DbSchema) (docs : List Document)
    (encode : String → List Nat) (p : Bool) (w w' : Nat) (c c' : CheckResult)
    (hw : w ≤ w')
    (h : check_using_db_schemas_without_pruning schemas docs encode p w =
      Except.ok c)
    (h' : check_using_db_schemas_without_pruning schemas docs encode p w' =
      Except.ok c')
    (hne : c.db_schemas ≠ []) : c'.db_schemas ≠ [] := by
  unfold check_using_db_schemas_without_pruning at h h'
  cases hc : candidate_set schemas docs with
  | error e => rw [hc] at h; exact absurd h (by simp)
  | ok cand =>
    rw [hc] at h h'
    dsimp only at h h'
    by_cases hcond :
        w < (encode (String.intercalate " "
          (cand.1.map (fun r => r.table_ddl)))).length ∨ p = true
    · rw [if_pos hcond] at h
      cases h
      exact absurd rfl hne
    · rw [if_neg hcond] at h
      push_neg at hcond
      have hcond' :
          ¬ (w' < (encode (String.intercalate " "
            (cand.1.map (fun r => r.table_ddl)))).length ∨ p = true) := by
        push_neg
        exact ⟨le_trans hcond.1 hw, hcond.2⟩
      rw [if_neg hcond'] at h'
      cases h
      cases h'
      exact hne

/-- Witness for `token_budget_decision` at a one-table schema, the
per-character tokenizer, window 100 and no forced pruning. -/
theorem token_budget_decision_witness :
    ∃ cand, candidate_set [exCustomers] [] = Except.ok cand ∧
      40 = (exEncode (String.intercalate " "
        (cand.1.map (fun r => r.table_ddl)))).length ∧
      false = cand.2.1 ∧ false = cand.2.2.1 ∧ false = cand.2.2.2 ∧
      [RetrievalResult.mk "customers" "CREATE TABLE customers (\n  id integer\n);"] =
        (if 100 < 40 ∨ false = true then [] else cand.1) ∧
      ([RetrievalResult.mk "customers" "CREATE TABLE customers (\n  id integer\n);"] =
          ([] : List RetrievalResult) ↔
        (100 < 40 ∨ false = true ∨ cand.1 = [])) :=
  token_budget_decision [exCustomers] [] exEncode false 100
    ⟨[⟨"customers", "CREATE TABLE customers (\n  id integer\n);"⟩],
      40, false, false, false⟩ (by rfl)

/-- Witness for `budget_monotone`: the decision stays "not required"
when the window grows from 100 to 200. -/
theorem budget_monotone_witness :
    (⟨[⟨"customers", "CREATE TABLE customers (\n  id integer\n);"⟩],
        40, false, false, false⟩ : CheckResult).db_schemas ≠ [] :=
  budget_monotone [exCustomers] [] exEncode false 100 200
    ⟨[⟨"customers", "CREATE TABLE customers (\n  id integer\n);"⟩],
      40, false, false, false⟩
    ⟨[⟨"customers", "CREATE TABLE customers (\n  id integer\n);"⟩],
      40, false, false, false⟩
    (by decide) (by rfl) (by rfl) (by decide)

/-- C6 (amended). A surfaced descriptor always stems from an
accumulated entry holding both a type tag and a columns list, and a
lone `TABLE` fragment without a columns payload and with no completing
`TABLE_COLUMNS` fragment is never surfaced; a second `TABLE` fragment
for the same name, however, completes the entry with an empty columns
list (see the counterexample). -/
theorem reassembly_completeness (n : String) (b : TableBase)
    (db : List (String × SchemaEntry)) (s : DbSchema)
    (hb : b.columns? = none) (hs : s ∈ surfaceEntries db) :
    construct_db_schemas [⟨n, some (FragContent.table b)⟩] = Except.ok [] ∧
    ∃ p ∈ db, p.2.base.isSome ∧ p.2.columns.isSome := by
  constructor
  · simp [construct_db_schemas, reassembleStep, decodeDoc, applyFrag,
      lookupEntry, surfaceEntries, hb, Except.map, pure, Except.pure,
      Bind.bind, Except.bind]
  · rcases List.mem_filterMap.mp hs with ⟨p, hp, hf⟩
    refine ⟨p, hp, ?_⟩
    cases hbase : p.2.base with
    | none => rw [hbase] at hf; simp at hf
    | some nc =>
      cases hcols : p.2.columns with
      | none => rw [hbase, hcols] at hf; simp at hf
      | some cols => exact ⟨rfl, rfl⟩

/-- Witness for `reassembly_completeness` at a concrete fragment and a
concrete accumulated mapping. -/
theorem reassembly_completeness_witness :
    construct_db_schemas [⟨"orders", some (FragContent.table ⟨"orders", "", none⟩)⟩] =
      Except.ok [] ∧
    ∃ p ∈ [(("orders" : String),
        (⟨some ("orders", ""), some ([] : List Column)⟩ : SchemaEntry))],
      p.2.base.isSome ∧ p.2.columns.isSome :=
  reassembly_completeness "orders" ⟨"orders", "", none⟩
    [("orders", ⟨some ("orders", ""), some []⟩)] ⟨"TABLE", "orders", "", []⟩
    rfl (by simp [surfaceEntries])

/-- C6 counterexample. A name whose only fragments are two `TABLE`
fragments — no `TABLE_COLUMNS` fragment ever supplying its columns —
is surfaced anyway: the second `TABLE` merge materialises an empty
columns list, so the partial fragment set passes the completeness
filter, while a single such fragment does not. -/
theorem double_table_fragment_surfaced_cx :
    construct_db_schemas [exDocTable] = Except.ok [] ∧
    construct_db_schemas [exDocTable, exDocTable] =
      Except.ok [⟨"TABLE", "orders", "", []⟩] := by
  constructor <;> rfl

/-- A key bound by no pair of the mapping looks up to nothing. -/
lemma lookupEntry_eq_none (db : List (String × SchemaEntry)) (k : String)
    (h : ∀ p ∈ db, p.1 ≠ k) : lookupEntry db k = none := by
  unfold lookupEntry
  have hf : db.find? (fun p => p.1 == k) = none :=
    List.find?_eq_none.mpr (by intro p hp; simpa using h p hp)
  rw [hf]
  rfl

/-- When all fragment names are pairwise distinct (and distinct from the
keys already accumulated), the reassembly fold appends one independent
entry per `TABLE`/`TABLE_COLUMNS` fragment, in arrival order. -/
lemma reassemble_fold_distinct :
    ∀ (docs : List Document) (db : List (String × SchemaEntry)),
      (∀ d ∈ docs, d.content.isSome) →
      (docs.map (fun d => d.metaName)).Nodup →
      (∀ d ∈ docs, ∀ p ∈ db, p.1 ≠ d.metaName) →
      docs.foldlM reassembleStep db =
        Except.ok (db ++ docs.filterMap singleEntry) := by
  intro docs
  induction docs with
  | nil => intro db _ _ _; simp [pure, Except.pure]
  | cons d ds ih =>
    intro db hdec hnd hdisj
    have hd : d.content.isSome := hdec d (List.mem_cons_self d ds)
    rw [List.map_cons, List.nodup_cons] at hnd
    cases hc : d.content with
    | none => rw [hc] at hd; simp at hd
    | some c =>
      have hstep : reassembleStep db d = Except.ok (applyFrag db d.metaName c) := by
        simp [reassembleStep, decodeDoc, hc, Except.map]
      rw [List.foldlM_cons, hstep]
      have hlook : lookupEntry db d.metaName = none :=
        lookupEntry_eq_none db d.metaName
          (fun p hp => hdisj d (List.mem_cons_self d ds) p hp)
      have hdisj' : ∀ e : SchemaEntry, ∀ d' ∈ ds,
          ∀ p ∈ db ++ [(d.metaName, e)], p.1 ≠ d'.metaName := by
        intro e d' hd' p hp
        rcases List.mem_append.mp hp with hpdb | hpd
        · exact hdisj d' (List.mem_cons_of_mem d hd') p hpdb
        · rcases List.mem_singleton.mp hpd with rfl
          intro hcontra
          apply hnd.1
          rw [show ((d.metaName, e) : String × SchemaEntry).1 = d.metaName from rfl]
            at hcontra
          rw [hcontra]
          exact List.mem_map_of_mem (fun x => x.metaName) hd'
      have hih := fun (e : SchemaEntry) =>
        ih (db ++ [(d.metaName, e)])
          (fun d' hd' => hdec d' (List.mem_cons_of_mem d hd'))
          hnd.2 (hdisj' e)
      have hihsame := ih db
          (fun d' hd' => hdec d' (List.mem_cons_of_mem d hd'))
          hnd.2 (fun d' hd' p hp => hdisj d' (List.mem_cons_of_mem d hd') p hp)
      cases c with
      | table b =>
        show (Except.ok (applyFrag db d.metaName (FragContent.table b)) >>= fun db' =>
            ds.foldlM reassembleStep db') = _
        rw [show applyFrag db d.metaName (FragContent.table b) =
            db ++ [(d.metaName, ⟨some (b.name, b.comment), b.columns?⟩)] by
          simp [applyFrag, hlook]]
        show ds.foldlM reassembleStep _ = _
        rw [hih ⟨some (b.name, b.comment), b.columns?⟩]
        simp [List.filterMap_cons, singleEntry, hc]
      | tableColumns cols =>
        show (Except.ok (applyFrag db d.metaName (FragContent.tableColumns cols)) >>=
            fun db' => ds.foldlM reassembleStep db') = _
        rw [show applyFrag db d.metaName (FragContent.tableColumns cols) =
            db ++ [(d.metaName, ⟨none, some cols⟩)] by
          simp [applyFrag, hlook]]
        show ds.foldlM reassembleStep _ = _
        rw [hih ⟨none, some cols⟩]
        simp [List.filterMap_cons, singleEntry, hc]
      | metric n cm cols =>
        show (Except.ok (applyFrag db d.metaName (FragContent.metric n cm cols)) >>=
            fun db' => ds.foldlM reassembleStep db') = _
        rw [show applyFrag db d.metaName (FragContent.metric n cm cols) = db from rfl]
        show ds.foldlM reassembleStep db = _
        rw [hihsame]
        simp [List.filterMap_cons, singleEntry, hc]
      | view n cm st =>
        show (Except.ok (applyFrag db d.metaName (FragContent.view n cm st)) >>=
            fun db' => ds.foldlM reassembleStep db') = _
        rw [show applyFrag db d.metaName (FragContent.view n cm st) = db from rfl]
        show ds.foldlM reassembleStep db = _
        rw [hihsame]
        simp [List.filterMap_cons, singleEntry, hc]

/-- C3 (amended). For fragment lists whose documents bear pairwise
distinct table names and all decode, reassembly is order-independent up
to output ordering: the results of permuted inputs are permutations of
each other. (Permuting or repeating fragments of the *same* table name
changes the result: `TABLE_COLUMNS` payloads are appended in arrival
order and a later `TABLE` fragment overwrites the non-column fields —
see the counterexample.) -/
theorem reassembly_perm_invariant (docs1 docs2 : List Document)
    (r1 r2 : List DbSchema) (hperm : docs1.Perm docs2)
    (hdec : ∀ d ∈ docs1, d.content.isSome)
    (hnd : (docs1.map (fun d => d.metaName)).Nodup)
    (h1 : construct_db_schemas docs1 = Except.ok r1)
    (h2 : construct_db_schemas docs2 = Except.ok r2) : r1.Perm r2 := by
  have hdec2 : ∀ d ∈ docs2, d.content.isSome :=
    fun d hd => hdec d (hperm.mem_iff.mpr hd)
  have hnd2 : (docs2.map (fun d => d.metaName)).Nodup :=
    (hperm.map (fun d => d.metaName)).nodup_iff.mp hnd
  have e1 := reassemble_fold_distinct docs1 [] hdec hnd (by simp)
  have e2 := reassemble_fold_distinct docs2 [] hdec2 hnd2 (by simp)
  rw [construct_db_schemas, e1] at h1
  rw [construct_db_schemas, e2] at h2
  simp [Except.map] at h1 h2
  rw [← h1, ← h2]
  exact (hperm.filterMap singleEntry).filterMap _

/-- Witness for `reassembly_perm_invariant`: swapping two
distinct-name fragments permutes the output. -/
theorem reassembly_perm_invariant_witness :
    ([⟨"TABLE", "orders", "", []⟩, ⟨"TABLE", "customers", "", []⟩] :
      List DbSchema).Perm
      [⟨"TABLE", "customers", "", []⟩, ⟨"TABLE", "orders", "", []⟩] :=
  reassembly_perm_invariant
    [⟨"orders", some (FragContent.table ⟨"orders", "", some []⟩)⟩,
     ⟨"customers", some (FragContent.table ⟨"customers", "", some []⟩)⟩]
    [⟨"customers", some (FragContent.table ⟨"customers", "", some []⟩)⟩,
     ⟨"orders", some (FragContent.table ⟨"orders", "", some []⟩)⟩]
    [⟨"TABLE", "orders", "", []⟩, ⟨"TABLE", "customers", "", []⟩]
    [⟨"TABLE", "customers", "", []⟩, ⟨"TABLE", "orders", "", []⟩]
    (List.Perm.swap _ _ _) (by decide) (by decide) rfl rfl

/-- C3 counterexample. Reassembly is not invariant under permuting
fragments of the same table name, nor under repeating a fragment:
swapping two `TABLE_COLUMNS` fragments for `orders` reorders the merged
columns, and repeating one duplicates them, so the resulting descriptor
sets differ. -/
theorem reassembly_not_perm_invariant_cx :
    ([exDocTable, exDocColsA, exDocColsB].Perm
      [exDocTable, exDocColsB, exDocColsA]) ∧
    construct_db_schemas [exDocTable, exDocColsA, exDocColsB] =
      Except.ok [⟨"TABLE", "orders", "", [exColId, exColName]⟩] ∧
    construct_db_schemas [exDocTable, exDocColsB, exDocColsA] =
      Except.ok [⟨"TABLE", "orders", "", [exColName, exColId]⟩] ∧
    ([⟨"TABLE", "orders", "", [exColId, exColName]⟩] : List DbSchema) ≠
      [⟨"TABLE", "orders", "", [exColName, exColId]⟩] ∧
    construct_db_schemas [exDocTable, exDocColsA, exDocColsA] =
      Except.ok [⟨"TABLE", "orders", "", [exColId, exColId]⟩] ∧
    ([⟨"TABLE", "orders", "", [exColId, exColId]⟩] : List DbSchema) ≠
      [⟨"TABLE", "orders", "", [exColId]⟩] := by
  refine ⟨List.Perm.cons _ (List.Perm.swap _ _ _), rfl, rfl, by decide, rfl, by decide⟩

/-- The pruned table loop emits, after any accumulated prefix, exactly
the contributions of the selected descriptors in descriptor order. -/
lemma prunedTable_fold_fst (needed : List (String × MatchingTableContents)) :
    ∀ (schemas : List DbSchema) (acc : List RetrievalResult × Bool × Bool),
      (schemas.foldl (prunedTableStep needed) acc).1 =
        acc.1 ++ schemas.filterMap (selectedTableResult needed) := by
  intro schemas
  induction schemas with
  | nil => intro acc; simp
  | cons s ss ih =>
    intro acc
    rw [List.foldl_cons, List.filterMap_cons]
    by_cases hty : (s.ty == "TABLE") = true
    · cases hl : lookupContents needed s.name with
      | some tc =>
        have hstep : prunedTableStep needed acc s =
            (acc.1 ++ [⟨s.name, (build_table_ddl s (some tc.columns)
              (some (needed.map (fun p => p.1)))).1⟩],
             acc.2.1 || (build_table_ddl s (some tc.columns)
              (some (needed.map (fun p => p.1)))).2.1,
             acc.2.2 || (build_table_ddl s (some tc.columns)
              (some (needed.map (fun p => p.1)))).2.2) := by
          simp [prunedTableStep, hty, hl]
        rw [hstep, ih]
        simp [selectedTableResult, hty, hl]
      | none =>
        have hstep : prunedTableStep needed acc s = acc := by
          simp [prunedTableStep, hty, hl]
        rw [hstep, ih]
        simp [selectedTableResult, hty, hl]
    · have hstep : prunedTableStep needed acc s = acc := by
        simp [prunedTableStep, hty]
      rw [hstep, ih]
      simp [selectedTableResult, hty]

/-- The pruned fragment loop succeeds when every selected fragment
decodes, and emits, after any accumulated prefix, exactly the selected
metric/view contributions in fragment order. -/
lemma prunedFrag_fold (needed : List (String × MatchingTableContents)) :
    ∀ (docs : List Document) (acc : List RetrievalResult × Bool),
      (∀ d ∈ docs, (lookupContents needed d.metaName).isSome → d.content.isSome) →
      ∃ b, docs.foldlM (prunedFragStep needed) acc =
        Except.ok (acc.1 ++ docs.filterMap (selectedFragResult needed), b) := by
  intro docs
  induction docs with
  | nil => intro acc _; exact ⟨acc.2, by simp [pure, Except.pure]⟩
  | cons d ds ih =>
    intro acc hdec
    rw [List.foldlM_cons, List.filterMap_cons]
    by_cases hsel : (lookupContents needed d.metaName).isSome = true
    · have hc : d.content.isSome := hdec d (List.mem_cons_self d ds) hsel
      cases hcon : d.content with
      | none => rw [hcon] at hc; simp at hc
      | some c =>
        have hdec' : ∀ d' ∈ ds,
            (lookupContents needed d'.metaName).isSome → d'.content.isSome :=
          fun d' hd' => hdec d' (List.mem_cons_of_mem d hd')
        cases c with
        | metric n cm cols =>
          have hstep : prunedFragStep needed acc d =
              Except.ok (acc.1 ++ [⟨n, build_metric_ddl n cm cols⟩], true) := by
            simp [prunedFragStep, hsel, decodeDoc, hcon, Except.map]
          rw [hstep]
          obtain ⟨b, hb⟩ := ih (acc.1 ++ [⟨n, build_metric_ddl n cm cols⟩], true) hdec'
          refine ⟨b, ?_⟩
          show ds.foldlM (prunedFragStep needed) _ = _
          rw [hb]
          simp [selectedFragResult, hsel, hcon]
        | view n cm st =>
          have hstep : prunedFragStep needed acc d =
              Except.ok (acc.1 ++ [⟨n, build_view_ddl n cm st⟩], acc.2) := by
            simp [prunedFragStep, hsel, decodeDoc, hcon, Except.map]
          rw [hstep]
          obtain ⟨b, hb⟩ := ih (acc.1 ++ [⟨n, build_view_ddl n cm st⟩], acc.2) hdec'
          refine ⟨b, ?_⟩
          show ds.foldlM (prunedFragStep needed) _ = _
          rw [hb]
          simp [selectedFragResult, hsel, hcon]
        | table b0 =>
          have hstep : prunedFragStep needed acc d = Except.ok acc := by
            simp [prunedFragStep, hsel, decodeDoc, hcon, Except.map]
          rw [hstep]
          obtain ⟨b, hb⟩ := ih acc hdec'
          refine ⟨b, ?_⟩
          show ds.foldlM (prunedFragStep needed) acc = _
          rw [hb]
          simp [selectedFragResult, hsel, hcon]
        | tableColumns cols =>
          have hstep : prunedFragStep needed acc d = Except.ok acc := by
            simp [prunedFragStep, hsel, decodeDoc, hcon, Except.map]
          rw [hstep]
          obtain ⟨b, hb⟩ := ih acc hdec'
          refine ⟨b, ?_⟩
          show ds.foldlM (prunedFragStep needed) acc = _
          rw [hb]
          simp [selectedFragResult, hsel, hcon]
    · have hstep : prunedFragStep needed acc d = Except.ok acc := by
        simp [prunedFragStep, hsel]
      rw [hstep]
      obtain ⟨b, hb⟩ := ih acc
        (fun d' hd' => hdec d' (List.mem_cons_of_mem d hd'))
      refine ⟨b, ?_⟩
      show ds.foldlM (prunedFragStep needed) acc = _
      rw [hb]
      simp [selectedFragResult, hsel]

/-- C4. On the pruned path the assembled result contains exactly the
reassembled `TABLE` descriptors whose names are keys of the pruning
selection (their DDLs rebuilt against the selected columns) followed by
exactly the `METRIC`/`VIEW` fragments whose meta names are keys of the
selection; a selection key matching neither a descriptor nor a fragment
contributes no result entry, and the assembly still succeeds without an
error. -/
theorem pruned_assembly_exact (check : CheckResult) (f : FilterOutput)
    (r : LLMReply) (tbls : List MatchingTable) (schemas : List DbSchema)
    (docs : List Document)
    (hh : f.replies.head? = some r) (hd : r.decoded = some tbls)
    (hdec : ∀ d ∈ docs,
      (lookupContents (reformat tbls) d.metaName).isSome → d.content.isSome) :
    ∃ hc hm hj, construct_retrieval_results check (some f) schemas docs =
      Except.ok ⟨schemas.filterMap (selectedTableResult (reformat tbls)) ++
          docs.filterMap (selectedFragResult (reformat tbls)), hc, hm, hj⟩ := by
  obtain ⟨b, hb⟩ := prunedFrag_fold (reformat tbls) docs ([], false) hdec
  have ht := prunedTable_fold_fst (reformat tbls) schemas ([], false, false)
  refine ⟨(prunedTableResults schemas (reformat tbls)).2.1, b,
    (prunedTableResults schemas (reformat tbls)).2.2, ?_⟩
  simp only [construct_retrieval_results, hh, hd]
  rw [show prunedFragResults docs (reformat tbls) =
    docs.foldlM (prunedFragStep (reformat tbls)) ([], false) from rfl, hb]
  have ht' : (prunedTableResults schemas (reformat tbls)).1 =
      schemas.filterMap (selectedTableResult (reformat tbls)) := by
    rw [show prunedTableResults schemas (reformat tbls) =
      schemas.foldl (prunedTableStep (reformat tbls)) ([], false, false) from rfl, ht]
    rfl
  rw [show ([] : List RetrievalResult) ++
    docs.filterMap (selectedFragResult (reformat tbls)) =
    docs.filterMap (selectedFragResult (reformat tbls)) from by simp]
  rw [← ht']

/-- Witness for `pruned_assembly_exact`: Scenario C plus a hallucinated
table. The selection picks `orders` (column `id`) and a `ghost` table
matching nothing; against the descriptors `orders` and `customers` and
no raw fragments, the result holds only `orders` with its DDL
restricted to `id`, and no error. -/
theorem pruned_assembly_exact_witness :
    ∃ hc hm hj, construct_retrieval_results ⟨[], 99, false, false, false⟩
      (some ⟨[⟨some [⟨"orders", ⟨["needed for join"], ["id"]⟩, "r"⟩,
               ⟨"ghost", ⟨["hallucinated"], ["x"]⟩, "r"⟩]⟩]⟩)
      [exOrders, exCustomers] [] =
      Except.ok ⟨([exOrders, exCustomers].filterMap
          (selectedTableResult (reformat
            [⟨"orders", ⟨["needed for join"], ["id"]⟩, "r"⟩,
             ⟨"ghost", ⟨["hallucinated"], ["x"]⟩, "r"⟩])) ++
        ([] : List Document).filterMap
          (selectedFragResult (reformat
            [⟨"orders", ⟨["needed for join"], ["id"]⟩, "r"⟩,
             ⟨"ghost", ⟨["hallucinated"], ["x"]⟩, "r"⟩]))), hc, hm, hj⟩ :=
  pruned_assembly_exact ⟨[], 99, false, false, false⟩
    ⟨[⟨some [⟨"orders", ⟨["needed for join"], ["id"]⟩, "r"⟩,
        ⟨"ghost", ⟨["hallucinated"], ["x"]⟩, "r"⟩]⟩]⟩
    ⟨some [⟨"orders", ⟨["needed for join"], ["id"]⟩, "r"⟩,
      ⟨"ghost", ⟨["hallucinated"], ["x"]⟩, "r"⟩]⟩
    [⟨"orders", ⟨["needed for join"], ["id"]⟩, "r"⟩,
      ⟨"ghost", ⟨["hallucinated"], ["x"]⟩, "r"⟩]
    [exOrders, exCustomers] [] rfl rfl (by intro d hd; simp at hd)

/-- The pruned table loop's result list, in closed form. -/
lemma prunedTableResults_fst (schemas : List DbSchema)
    (needed : List (String × MatchingTableContents)) :
    (prunedTableResults schemas needed).1 =
      schemas.filterMap (selectedTableResult needed) := by
  rw [show prunedTableResults schemas needed =
    schemas.foldl (prunedTableStep needed) ([], false, false) from rfl,
    prunedTable_fold_fst]
  rfl

/-- Appending a selection entry makes the reformatted map bind its name
to that entry's contents (Python dict assignment). -/
lemma reformat_concat (tbls : List MatchingTable) (t : MatchingTable) :
    reformat (tbls ++ [t]) =
      upsertContents (reformat tbls) t.table_name t.table_contents := by
  unfold reformat
  rw [List.foldl_append]
  rfl

/-- An upserted key looks up to the upserted value. -/
lemma lookup_upsert_self (m : List (String × MatchingTableContents))
    (k : String) (v : MatchingTableContents) :
    lookupContents (upsertContents m k v) k = some v := by
  induction m with
  | nil => simp [upsertContents, lookupContents]
  | cons p rest ih =>
    by_cases hp : (p.1 == k) = true
    · simp [upsertContents, hp, lookupContents]
    · simp only [upsertContents, hp]
      rw [if_neg (by simp [hp])]
      simp only [lookupContents, List.find?_cons, hp]
      exact ih

/-- Upserting one key leaves lookups of any other key unchanged. -/
lemma lookup_upsert_ne (m : List (String × MatchingTableContents))
    (t k : String) (v : MatchingTableContents) (hk : (t == k) = false) :
    lookupContents (upsertContents m t v) k = lookupContents m k := by
  induction m with
  | nil => simp [upsertContents, lookupContents, hk]
  | cons p rest ih =>
    by_cases hp : (p.1 == t) = true
    · have hpt : p.1 = t := by simpa using hp
      simp only [upsertContents]
      rw [if_pos hp]
      simp only [lookupContents, List.find?_cons, hk, hpt]
    · simp only [upsertContents]
      rw [if_neg (by simp [hp])]
      by_cases hpk : (p.1 == k) = true
      · simp only [lookupContents, List.find?_cons, hpk]
      · simp only [lookupContents, List.find?_cons, hpk] at ih ⊢
        exact ih

/-- One result per selected descriptor: the pruned table loop's output
length equals the number of `TABLE` descriptors whose names are
selection keys, however many selection entries named them. -/
lemma filterMap_selected_length (needed : List (String × MatchingTableContents)) :
    ∀ schemas : List DbSchema,
      (schemas.filterMap (selectedTableResult needed)).length =
        (schemas.filter (fun x => x.ty == "TABLE" &&
          (lookupContents needed x.name).isSome)).length := by
  intro schemas
  induction schemas with
  | nil => rfl
  | cons s ss ih =>
    rw [List.filterMap_cons, List.filter_cons]
    by_cases hty : (s.ty == "TABLE") = true
    · cases hl : lookupContents needed s.name with
      | some tc => simp [selectedTableResult, hty, hl, ih]
      | none => simp [selectedTableResult, hty, hl, ih]
    · simp [selectedTableResult, hty, ih]

/-- Column selections are consumed by membership only: two selections
holding the same names (regardless of duplication or order) rebuild the
same table DDL. -/
lemma build_table_ddl_sel_ext (s : DbSchema) (l1 l2 : List String)
    (ts : Option (List String)) (h : ∀ x, l1.contains x = l2.contains x) :
    build_table_ddl s (some l1) ts = build_table_ddl s (some l2) ts := by
  have hf : s.columns.filter
        (fun c => lowerTag c.data_type != "unknown" && l1.contains c.name) =
      s.columns.filter
        (fun c => lowerTag c.data_type != "unknown" && l2.contains c.name) := by
    apply List.filter_congr
    intro c _
    rw [h c.name]
  unfold build_table_ddl
  dsimp only
  rw [hf]

/-- C10. If the pruning reply names the same table in several `results`
entries, the reformatted map keeps only the last entry's contents while
lookups of other names are unaffected; the pruned table loop still
emits exactly one result per matching reassembled descriptor; and
duplicate column names inside one entry have no effect, since the
selection is consumed by membership (the Python `set` conversion). -/
theorem pruning_selection_semantics (tbls : List MatchingTable)
    (t : MatchingTable) (k : String) (schemas : List DbSchema)
    (needed : List (String × MatchingTableContents)) (s : DbSchema)
    (l1 l2 : List String) (ts : Option (List String))
    (hk : (t.table_name == k) = false)
    (hcols : ∀ x, l1.contains x = l2.contains x) :
    lookupContents (reformat (tbls ++ [t])) t.table_name = some t.table_contents ∧
    lookupContents (reformat (tbls ++ [t])) k = lookupContents (reformat tbls) k ∧
    (prunedTableResults schemas needed).1.length =
      (schemas.filter (fun x => x.ty == "TABLE" &&
        (lookupContents needed x.name).isSome)).length ∧
    build_table_ddl s (some l1) ts = build_table_ddl s (some l2) ts := by
  refine ⟨?_, ?_, ?_, build_table_ddl_sel_ext s l1 l2 ts hcols⟩
  · rw [reformat_concat]
    exact lookup_upsert_self _ _ _
  · rw [reformat_concat]
    exact lookup_upsert_ne _ _ _ _ hk
  · rw [prunedTableResults_fst]
    exact filterMap_selected_length needed schemas

/-- Witness for `pruning_selection_semantics`: a duplicated `orders`
selection entry where the later one wins, an unaffected `customers`
lookup, a one-per-descriptor count, and a duplicated column name with
no effect on the rebuilt DDL. -/
theorem pruning_selection_semantics_witness :
    lookupContents (reformat ([⟨"orders", ⟨["a"], ["id"]⟩, "r"⟩] ++
        [⟨"orders", ⟨["b"], ["cname"]⟩, "r"⟩])) "orders" =
      some ⟨["b"], ["cname"]⟩ ∧
    lookupContents (reformat ([⟨"orders", ⟨["a"], ["id"]⟩, "r"⟩] ++
        [⟨"orders", ⟨["b"], ["cname"]⟩, "r"⟩])) "customers" =
      lookupContents (reformat [⟨"orders", ⟨["a"], ["id"]⟩, "r"⟩]) "customers" ∧
    (prunedTableResults [exOrders, exCustomers]
        [("orders", ⟨["a"], ["id"]⟩)]).1.length =
      ([exOrders, exCustomers].filter (fun x => x.ty == "TABLE" &&
        (lookupContents [("orders", ⟨["a"], ["id"]⟩)] x.name).isSome)).length ∧
    build_table_ddl exOrders (some ["id", "id"]) (some ["orders"]) =
      build_table_ddl exOrders (some ["id"]) (some ["orders"]) :=
  pruning_selection_semantics [⟨"orders", ⟨["a"], ["id"]⟩, "r"⟩]
    ⟨"orders", ⟨["b"], ["cname"]⟩, "r"⟩ "customers" [exOrders, exCustomers]
    [("orders", ⟨["a"], ["id"]⟩)] exOrders ["id", "id"] ["id"] (some ["orders"])
    (by decide) (by intro x; simp [List.contains_cons])

end WrenAI
